import Mathlib

/-!
Verification of the piday2025 exhibition-support scripts.

The Python sources are shallowly embedded: pure data flow becomes Lean
functions, filesystem and network effects become explicit oracles
(`Option`-returning functions model calls that may raise), and Python's
arbitrary-precision ints become `Int`/`Nat`.  Floating point only occurs
where its exact value never matters for the stated properties (embedding
vectors, timestamps); those payloads are modelled as `Int`.
-/

namespace PiDay

/-! ### Characters used by the JSON serializer.
Named constants keep the escape table readable. -/

def quoteChar : Char := Char.ofNat 34

def backslashChar : Char := Char.ofNat 92

def nlChar : Char := Char.ofNat 10

def lbraceChar : Char := Char.ofNat 123

def rbraceChar : Char := Char.ofNat 125

/-! ### Path helpers (`pathlib.Path.name`, `.stem`, `.suffix`).

`Path(p).name` is the final path component; `Path(p).stem` drops the last
extension, where pathlib treats `name[i:]` as the suffix only when the last
dot sits strictly inside the name (`0 < i < len(name) - 1` is pathlib's
actual guard is `0 < i < len(name)`, checked below against CPython:
`i = name.rfind('.'); if 0 < i < len(name) - 1` is the os.path variant;
pathlib uses `0 < i < len(name) - 1` as well for `splitext`-style logic.
We follow CPython's `PurePath.stem`: suffix exists iff the last dot index
`i` satisfies `0 < i < len(name) - 1`. -/

/-- Characters after the last slash (the whole string when no slash). -/
def afterLastSlash (cs : List Char) : List Char :=
  cs.foldl (fun acc c => if c = '/' then [] else acc ++ [c]) []

def lastComponent (p : String) : String := ⟨afterLastSlash p.data⟩

/-- Index of the last occurrence of `c` in `cs`, if any. -/
def lastIdxOf (cs : List Char) (c : Char) : Option Nat :=
  cs.foldl (fun acc x => match acc with
    | (i, r) => (i + 1, if x = c then some i else r)) ((0 : Nat), (none : Option Nat)) |>.2

/-- `Path(name).stem` for a bare file name. -/
def stemOfName (name : String) : String :=
  let cs := name.data
  match lastIdxOf cs '.' with
  | some i => if 0 < i ∧ i < cs.length - 1 then ⟨cs.take i⟩ else name
  | none => name

/-- `Path(name).suffix` for a bare file name. -/
def suffixOfName (name : String) : String :=
  let cs := name.data
  match lastIdxOf cs '.' with
  | some i => if 0 < i ∧ i < cs.length - 1 then ⟨cs.drop i⟩ else ""
  | none => ""

/-- `Path(p).stem`. -/
def pathStem (p : String) : String := stemOfName (lastComponent p)

/-- `Path(p).suffix`. -/
def pathSuffix (p : String) : String := suffixOfName (lastComponent p)

/-! ### A model of the JSON values the scripts build.

Numeric payloads (embedding coordinates, file sizes, timestamps) are
modelled as `Int`: no claim depends on float arithmetic or float
formatting, only on the shape of the records. -/

inductive Json where
  | null : Json
  | bool : Bool → Json
  | num : Int → Json
  | str : String → Json
  | arr : List Json → Json
  | obj : List (String × Json) → Json

/-- Decimal digit to character. -/
def digitChar (n : Nat) : Char :=
  if n = 0 then '0' else if n = 1 then '1' else if n = 2 then '2'
  else if n = 3 then '3' else if n = 4 then '4' else if n = 5 then '5'
  else if n = 6 then '6' else if n = 7 then '7' else if n = 8 then '8' else '9'

/-- Decimal rendering of a natural number. -/
def natDigits (n : Nat) : List Char :=
  if _h : n < 10 then [digitChar n]
  else natDigits (n / 10) ++ [digitChar (n % 10)]
decreasing_by
  exact Nat.div_lt_self (Nat.lt_of_lt_of_le (by norm_num) (Nat.not_lt.mp _h)) (by norm_num)

/-- Decimal rendering of an integer, as `repr` of a Python int. -/
def intDigits (i : Int) : List Char :=
  if i < 0 then '-' :: natDigits i.natAbs else natDigits i.natAbs

/-- Hex digit for the `\u00XX` escapes of control characters. -/
def hexDigit (n : Nat) : Char :=
  if n < 10 then digitChar n else
  if n = 10 then 'a' else if n = 11 then 'b' else if n = 12 then 'c'
  else if n = 13 then 'd' else if n = 14 then 'e' else 'f'

/-- `json.dumps` escaping of one character inside a JSON string
(CPython's C escaper: quote, backslash, the named control escapes, and
`\u00XX` for the remaining control characters). -/
def escapeChar (c : Char) : List Char :=
  if c = quoteChar then [backslashChar, quoteChar]
  else if c = backslashChar then [backslashChar, backslashChar]
  else if c = nlChar then [backslashChar, 'n']
  else if c = Char.ofNat 9 then [backslashChar, 't']
  else if c = Char.ofNat 13 then [backslashChar, 'r']
  else if c = Char.ofNat 8 then [backslashChar, 'b']
  else if c = Char.ofNat 12 then [backslashChar, 'f']
  else if c.toNat < 32 then
    [backslashChar, 'u', '0', '0', hexDigit (c.toNat / 16), hexDigit (c.toNat % 16)]
  else [c]

/-- Serialized JSON string literal. -/
def dumpsStr (s : String) : List Char :=
  quoteChar :: (s.data.map escapeChar).flatten ++ [quoteChar]

mutual

/-- `json.dumps` with its default separators `(', ', ': ')`, producing the
character stream written to the file. -/
def dumpsChars : Json → List Char
  | .null =>
    'n' :: 'u' :: 'l' :: ['l']
  | .bool true => 't' :: 'r' :: 'u' :: ['e']
  | .bool false => 'f' :: 'a' :: 'l' :: 's' :: ['e']
  | .num n => intDigits n
  | .str s => dumpsStr s
  | .arr xs => ('[' :: dumpsArr xs) ++ [']']
  | .obj kvs => (lbraceChar :: dumpsObj kvs) ++ [rbraceChar]

/-- Array elements joined by `", "`. -/
def dumpsArr : List Json → List Char
  | [] => []
  | [x] => dumpsChars x
  | x :: y :: xs => dumpsChars x ++ (',' :: (' ' :: dumpsArr (y :: xs)))

/-- Object entries `"key": value` joined by `", "`. -/
def dumpsObj : List (String × Json) → List Char
  | [] => []
  | [kv] => dumpsStr kv.1 ++ (':' :: (' ' :: dumpsChars kv.2))
  | kv :: kv2 :: kvs =>
    dumpsStr kv.1 ++
      ((':' :: (' ' :: dumpsChars kv.2)) ++ (',' :: (' ' :: dumpsObj (kv2 :: kvs))))

end

/-- `save_jsonl(records, output_file)`: the file content written, namely
`json.dumps(record) + '\n'` for each record, concatenated in order. -/
def save_jsonl (records : List Json) : List Char :=
  (records.map (fun r => dumpsChars r ++ [nlChar])).flatten

/-- Number of lines of a file content (newline count, as `wc -l`). -/
def countNl (cs : List Char) : Nat := cs.count nlChar

/-- Split a character stream at newline characters; a content that ends in
a newline yields a trailing empty chunk. -/
def splitNl : List Char → List (List Char)
  | [] => [[]]
  | c :: cs =>
    if c = nlChar then [] :: splitNl cs
    else
      match splitNl cs with
      | [] => [[c]]
      | l :: ls => (c :: l) :: ls

theorem notMemAppend {α : Type} {a : α} {l1 l2 : List α} (h1 : a ∉ l1) (h2 : a ∉ l2) :
    a ∉ l1 ++ l2 := fun h => (List.mem_append.mp h).elim h1 h2

theorem notMemCons {α : Type} {a b : α} {l : List α} (h1 : a ≠ b) (h2 : a ∉ l) :
    a ∉ b :: l := fun h => (List.mem_cons.mp h).elim h1 h2

theorem digitChar_ne_nl (n : Nat) : digitChar n ≠ nlChar := by
  unfold digitChar
  split_ifs <;> decide

theorem hexDigit_ne_nl (n : Nat) : hexDigit n ≠ nlChar := by
  unfold hexDigit
  split_ifs <;> first | decide | exact digitChar_ne_nl n

theorem nl_not_in_natDigits (n : Nat) : nlChar ∉ natDigits n := by
  induction n using Nat.strong_induction_on with
  | _ n ih =>
    unfold natDigits
    split
    · simp only [List.mem_singleton]
      exact fun e => digitChar_ne_nl n e.symm
    · rename_i h
      simp only [List.mem_append, List.mem_singleton]
      push_neg
      refine ⟨ih _ ?_, fun e => digitChar_ne_nl _ e.symm⟩
      exact Nat.div_lt_self (Nat.lt_of_lt_of_le (by norm_num) (Nat.not_lt.mp h)) (by norm_num)

theorem nl_not_in_intDigits (i : Int) : nlChar ∉ intDigits i := by
  unfold intDigits
  split
  · simp only [List.mem_cons]
    push_neg
    exact ⟨by decide, nl_not_in_natDigits _⟩
  · exact nl_not_in_natDigits _

theorem nl_not_in_escapeChar (c : Char) : nlChar ∉ escapeChar c := by
  unfold escapeChar
  split_ifs with h1 h2 h3 h4 h5 h6 h7 h8
  · decide
  · decide
  · decide
  · decide
  · decide
  · decide
  · decide
  · exact notMemCons (by decide) (notMemCons (by decide) (notMemCons (by decide)
      (notMemCons (by decide) (notMemCons (fun e => hexDigit_ne_nl _ e.symm)
      (notMemCons (fun e => hexDigit_ne_nl _ e.symm) (by simp))))))
  · simp only [List.mem_singleton]
    exact fun e => h3 e.symm

theorem nl_not_in_dumpsStr (s : String) : nlChar ∉ dumpsStr s := by
  unfold dumpsStr
  intro hmem
  rcases List.mem_cons.mp hmem with h | h
  · exact absurd h (by decide)
  rcases List.mem_append.mp h with h | h
  · rcases List.mem_flatten.mp h with ⟨l, hl, hnl⟩
    rcases List.mem_map.mp hl with ⟨c, _, rfl⟩
    exact nl_not_in_escapeChar c hnl
  · exact absurd (List.mem_singleton.mp h) (by decide)

mutual

theorem nl_not_in_dumpsChars : (j : Json) → nlChar ∉ dumpsChars j
  | .null => by unfold dumpsChars; decide
  | .bool true => by unfold dumpsChars; decide
  | .bool false => by unfold dumpsChars; decide
  | .num n => by unfold dumpsChars; exact nl_not_in_intDigits n
  | .str s => by unfold dumpsChars; exact nl_not_in_dumpsStr s
  | .arr xs => by
    unfold dumpsChars
    exact notMemAppend (notMemCons (by decide) (nl_not_in_dumpsArr xs)) (by decide)
  | .obj kvs => by
    unfold dumpsChars
    exact notMemAppend (notMemCons (by decide) (nl_not_in_dumpsObj kvs)) (by decide)

theorem nl_not_in_dumpsArr : (xs : List Json) → nlChar ∉ dumpsArr xs
  | [] => by unfold dumpsArr; simp
  | [x] => by unfold dumpsArr; exact nl_not_in_dumpsChars x
  | x :: y :: xs => by
    unfold dumpsArr
    exact notMemAppend (nl_not_in_dumpsChars x)
      (notMemCons (by decide) (notMemCons (by decide) (nl_not_in_dumpsArr (y :: xs))))

theorem nl_not_in_dumpsObj : (kvs : List (String × Json)) → nlChar ∉ dumpsObj kvs
  | [] => by unfold dumpsObj; simp
  | [kv] => by
    unfold dumpsObj
    exact notMemAppend (nl_not_in_dumpsStr kv.1)
      (notMemCons (by decide) (notMemCons (by decide) (nl_not_in_dumpsChars kv.2)))
  | kv :: kv2 :: kvs => by
    unfold dumpsObj
    exact notMemAppend (nl_not_in_dumpsStr kv.1)
      (notMemAppend
        (notMemCons (by decide) (notMemCons (by decide) (nl_not_in_dumpsChars kv.2)))
        (notMemCons (by decide) (notMemCons (by decide) (nl_not_in_dumpsObj (kv2 :: kvs)))))

end

theorem splitNl_ne_nil (cs : List Char) : splitNl cs ≠ [] := by
  cases cs with
  | nil => simp [splitNl]
  | cons c cs =>
    unfold splitNl
    split
    · simp
    · split <;> simp

theorem splitNl_cons_ne (c : Char) (cs : List Char) (hc : c ≠ nlChar) :
    splitNl (c :: cs) =
      match splitNl cs with
      | [] => [[c]]
      | l :: ls => (c :: l) :: ls := by
  simp [splitNl, hc]

/-- Splitting a stream that starts with a newline-free chunk, a newline,
and a remainder yields that chunk as the first line. -/
theorem splitNl_chunk (d rest : List Char) (hd : nlChar ∉ d) :
    splitNl (d ++ nlChar :: rest) = d :: splitNl rest := by
  induction d with
  | nil => simp [splitNl]
  | cons c d ih =>
    have hc : c ≠ nlChar := fun e => hd (e ▸ List.mem_cons_self c d)
    have hd' : nlChar ∉ d := fun h => hd (List.mem_cons_of_mem c h)
    obtain ⟨l, ls, hls⟩ : ∃ l ls, splitNl rest = l :: ls := by
      cases h : splitNl rest with
      | nil => exact absurd h (splitNl_ne_nil rest)
      | cons l ls => exact ⟨l, ls, rfl⟩
    rw [List.cons_append, splitNl_cons_ne c _ hc, ih hd', hls]

theorem splitNl_save_jsonl (records : List Json) :
    splitNl (save_jsonl records) = records.map dumpsChars ++ [[]] := by
  induction records with
  | nil => simp [save_jsonl, splitNl]
  | cons r rs ih =>
    have : save_jsonl (r :: rs) = dumpsChars r ++ nlChar :: save_jsonl rs := by
      simp [save_jsonl]
    rw [this, splitNl_chunk _ _ (nl_not_in_dumpsChars r), ih]
    simp

theorem countNl_save_jsonl (records : List Json) :
    countNl (save_jsonl records) = records.length := by
  induction records with
  | nil => simp [save_jsonl, countNl]
  | cons r rs ih =>
    have h1 : save_jsonl (r :: rs) = dumpsChars r ++ nlChar :: save_jsonl rs := by
      simp [save_jsonl]
    have h0 : (dumpsChars r).count nlChar = 0 :=
      List.count_eq_zero.mpr (nl_not_in_dumpsChars r)
    simp only [countNl] at ih ⊢
    rw [h1, List.count_append, h0, List.count_cons_self, ih]
    simp [List.length_cons]

/-! ### `image_to_nomic.py`

A directory tree is modelled by the list of file paths under it, in the
order `Path.glob` enumerates them.  `input_path.glob(f"**/*{ext}")`
matches exactly the files whose path ends with `ext` (any directory
depth, `*` may be empty). -/

/-- `f` ends with `ext` (Python `str.endswith`), on the character lists. -/
def strEndsWith (f ext : String) : Bool :=
  f.data.drop (f.data.length - ext.data.length) == ext.data

def globMatches (listing : List String) (ext : String) : List String :=
  listing.filter (fun f => strEndsWith f ext)

/-- `find_image_files(input_dir, extensions, max_files)`: per-extension
glob results concatenated, sorted (Python string sort is lexicographic,
as Lean's `≤` on `String`), then truncated to `max_files` when given. -/
def find_image_files (listing : List String) (extensions : List String)
    (maxFiles : Option Nat) : List String :=
  let image_files := (extensions.map (globMatches listing)).flatten
  let sorted := image_files.mergeSort (fun a b => a ≤ b)
  match maxFiles with
  | some m => sorted.take m
  | none => sorted

/-- Result of `os.stat`: the three fields the script reads.  Timestamps
are opaque numeric payloads. -/
structure StatInfo where
  size_bytes : Int
  created : Int
  modified : Int

/-- `get_file_metadata(filepath)`, with `os.stat` as an oracle. -/
def get_file_metadata (stat : String → StatInfo) (filepath : String) : Json :=
  Json.obj [("filename", Json.str (lastComponent filepath)),
            ("filepath", Json.str filepath),
            ("extension", Json.str (pathSuffix filepath).toLower),
            ("size_bytes", Json.num (stat filepath).size_bytes),
            ("created", Json.num (stat filepath).created),
            ("modified", Json.num (stat filepath).modified)]

/-- The batch slices `image_files[k*bs : min((k+1)*bs, n)]` for
`k < ceil(n / bs)`, as the Python loop iterates them.  (For `bs = 0`
Python would raise `ZeroDivisionError`; the model returns `[]` and all
theorems assume `0 < bs`.) -/
def chunks {α : Type} (bs : Nat) (l : List α) : List (List α) :=
  if _hc : bs = 0 ∨ l.length = 0 then [] else l.take bs :: chunks bs (l.drop bs)
termination_by l.length
decreasing_by
  push_neg at _hc
  have hbs : 0 < bs := Nat.pos_of_ne_zero _hc.1
  have hl : 0 < l.length := Nat.pos_of_ne_zero _hc.2
  simp only [List.length_drop]
  omega

/-- External effects of `process_images_batch`: the `os.stat` oracle for
metadata, and `nomic.embed.image` returning one vector per input on
success or `none` when it raises (the exception the script catches). -/
structure EmbedEnv where
  stat : String → StatInfo
  embed : List String → Option (List (List Int))

/-- `process_images_batch`: for each batch, either dummy records
(`dry_run`) or records zipped with the vectors `embed.image` returned;
a batch whose embedding call raises is logged and dropped. -/
def process_images_batch (env : EmbedEnv) (image_files : List String)
    (batch_size : Nat) (include_metadata : Bool) (dry_run : Bool) : List Json :=
  ((chunks batch_size image_files).map (fun batch =>
    if dry_run then
      batch.map (fun file_path =>
        Json.obj ([("id", Json.str (pathStem file_path)),
                   ("embedding", Json.arr (List.replicate 512 (Json.num 0)))] ++
          (if include_metadata
           then [("metadata", get_file_metadata env.stat file_path)] else [])))
    else
      match env.embed batch with
      | none => []
      | some embeddings =>
        (batch.zip embeddings).map (fun fe =>
          Json.obj ([("id", Json.str (pathStem fe.1)),
                     ("embedding", Json.arr (fe.2.map Json.num))] ++
            (if include_metadata
             then [("metadata", get_file_metadata env.stat fe.1)] else []))))).flatten

theorem chunks_flatten {α : Type} (bs : Nat) (hbs : bs ≠ 0) (l : List α) :
    (chunks bs l).flatten = l := by
  generalize hn : l.length = n
  induction n using Nat.strong_induction_on generalizing l with
  | _ n ih =>
    unfold chunks
    split
    · rename_i h
      rcases h with h | h
      · exact absurd h hbs
      · simp [List.length_eq_zero.mp h]
    · rename_i h
      push_neg at h
      rw [List.flatten_cons]
      rw [ih (l.drop bs).length ?_ (l.drop bs) rfl]
      · exact List.take_append_drop bs l
      · have h1 : 0 < l.length := Nat.pos_of_ne_zero h.2
        have h2 : 0 < bs := Nat.pos_of_ne_zero h.1
        simp only [List.length_drop]
        omega

theorem mem_of_mem_chunks {α : Type} {bs : Nat} {l b : List α}
    (hb : b ∈ chunks bs l) {x : α} (hx : x ∈ b) : x ∈ l := by
  by_cases hbs : bs = 0
  · subst hbs
    unfold chunks at hb
    simp at hb
  · rw [← chunks_flatten bs hbs l]
    exact List.mem_flatten.mpr ⟨b, hb, hx⟩

theorem length_chunks_flatten_map {α : Type} (bs : Nat) (hbs : bs ≠ 0) (l : List α)
    (f : List α → List Json) (hf : ∀ b ∈ chunks bs l, (f b).length = b.length) :
    (((chunks bs l).map f).flatten).length = l.length := by
  have h1 : (((chunks bs l).map f).flatten).length
      = (((chunks bs l).map f).map List.length).sum := List.length_flatten _
  have h2 : ((chunks bs l).flatten).length
      = ((chunks bs l).map List.length).sum := List.length_flatten _
  rw [h1, List.map_map]
  rw [chunks_flatten bs hbs l] at h2
  rw [h2]
  exact congrArg List.sum (List.map_congr_left (fun b hb => by simpa using hf b hb))


/-- Top-level field lookup on a JSON object (`record.get('k')`). -/
def jsonGet (j : Json) (k : String) : Option Json :=
  match j with
  | .obj kvs => (kvs.find? (fun kv => kv.1 = k)).map (fun kv => kv.2)
  | _ => none

/-- The field names of a JSON object, in order. -/
def jsonKeys : Json → List String
  | .obj kvs => kvs.map (fun kv => kv.1)
  | _ => []

/-- C6: `save_jsonl` writes exactly one JSON-serialized record per output
line, in the order of the input list: splitting the written content at
newlines yields precisely the serializations of the records (with the
empty tail after the final newline), so the line count equals the record
count. -/
theorem save_jsonl_one_line_per_record (records : List Json) :
    splitNl (save_jsonl records) = records.map dumpsChars ++ [[]] ∧
    countNl (save_jsonl records) = records.length :=
  ⟨splitNl_save_jsonl records, countNl_save_jsonl records⟩

/-- C5: every record `process_images_batch` produces comes from one of the
input files and is exactly `{id, embedding}` or `{id, embedding, metadata}`:
its `id` is the file's stem, its `embedding` an array of numbers, and a
`metadata` field is present if and only if `include_metadata` is true; no
other fields occur. -/
theorem process_images_batch_record_shape (env : EmbedEnv)
    (image_files : List String) (batch_size : Nat) (include_metadata dry_run : Bool)
    (r : Json)
    (hr : r ∈ process_images_batch env image_files batch_size include_metadata dry_run) :
    ∃ (f : String) (emb : List Int), f ∈ image_files ∧
      r = Json.obj ([("id", Json.str (pathStem f)),
                     ("embedding", Json.arr (emb.map Json.num))] ++
        (if include_metadata
         then [("metadata", get_file_metadata env.stat f)] else [])) ∧
      jsonKeys r = ["id", "embedding"] ++
        (if include_metadata then ["metadata"] else []) := by
  unfold process_images_batch at hr
  rcases List.mem_flatten.mp hr with ⟨recs, hrecs, hrrec⟩
  rcases List.mem_map.mp hrecs with ⟨batch, hbatch, rfl⟩
  have keyShape : ∀ f emb,
      jsonKeys (Json.obj ([("id", Json.str (pathStem f)),
          ("embedding", Json.arr (emb : List Json))] ++
        (if include_metadata
         then [("metadata", get_file_metadata env.stat f)] else []))) =
      ["id", "embedding"] ++ (if include_metadata then ["metadata"] else []) := by
    intro f emb
    cases include_metadata <;> simp [jsonKeys]
  split at hrrec
  · rcases List.mem_map.mp hrrec with ⟨f, hf, rfl⟩
    refine ⟨f, List.replicate 512 0, mem_of_mem_chunks hbatch hf, ?_, ?_⟩
    · rw [List.map_replicate]
    · rw [← List.map_replicate]
      exact keyShape f _
  · rename_i hdry
    rcases hemb : env.embed batch with _ | embeddings
    · rw [hemb] at hrrec
      simp at hrrec
    · rw [hemb] at hrrec
      rcases List.mem_map.mp hrrec with ⟨fe, hfe, rfl⟩
      have hf : fe.1 ∈ batch := (List.of_mem_zip hfe).1
      exact ⟨fe.1, fe.2, mem_of_mem_chunks hbatch hf, rfl, keyShape fe.1 _⟩

/-- A concrete embedding environment for witnesses: `os.stat` returns
zeros and `embed.image` returns one one-dimensional vector per input. -/
def envW : EmbedEnv :=
  { stat := fun _ => ⟨0, 0, 0⟩
    embed := fun batch => some (batch.map (fun _ => [(0 : Int)])) }

set_option maxRecDepth 8192 in
/-- Witness for the record-shape theorem at a concrete dry run over one
file. -/
theorem process_images_batch_record_shape_witness :
    Json.obj [("id", Json.str "a"),
              ("embedding", Json.arr (List.replicate 512 (Json.num 0)))] ∈
        process_images_batch envW ["img/a.jpg"] 16 false true ∧
    ∃ (f : String) (emb : List Int), f ∈ ["img/a.jpg"] ∧
      Json.obj [("id", Json.str "a"),
                ("embedding", Json.arr (List.replicate 512 (Json.num 0)))] =
        Json.obj ([("id", Json.str (pathStem f)),
                   ("embedding", Json.arr (emb.map Json.num))] ++
          (if false then [("metadata", get_file_metadata envW.stat f)] else [])) ∧
      jsonKeys (Json.obj [("id", Json.str "a"),
                ("embedding", Json.arr (List.replicate 512 (Json.num 0)))]) =
        ["id", "embedding"] ++ (if false then ["metadata"] else []) := by
  have hr : Json.obj [("id", Json.str "a"),
      ("embedding", Json.arr (List.replicate 512 (Json.num 0)))] ∈
      process_images_batch envW ["img/a.jpg"] 16 false true := by
    have hc : chunks 16 ["img/a.jpg"] = [["img/a.jpg"]] := by simp [chunks]
    have hstem : pathStem "img/a.jpg" = "a" := rfl
    unfold process_images_batch
    rw [hc]
    simp [hstem]
  exact ⟨hr, process_images_batch_record_shape envW ["img/a.jpg"] 16 false true _ hr⟩


theorem sum_map_add {α : Type} (l : List α) (f g : α → Nat) :
    (l.map (fun x => f x + g x)).sum = (l.map f).sum + (l.map g).sum := by
  induction l with
  | nil => simp
  | cons a l ih =>
    simp only [List.map_cons, List.sum_cons, ih]
    omega

theorem sum_map_ite_eq_countP {α : Type} (l : List α) (p : α → Bool) :
    (l.map (fun x => if p x then 1 else 0)).sum = l.countP p := by
  induction l with
  | nil => simp
  | cons a l ih =>
    by_cases h : p a <;>
      simp only [List.map_cons, List.sum_cons, List.countP_cons, h, if_true, if_false, ih] <;>
      omega

/-- When every file matches at most one extension, the concatenation of
the per-extension glob results has exactly one entry per matching file. -/
theorem glob_flatten_length (exts : List String) :
    ∀ listing : List String,
      (∀ f ∈ listing, exts.countP (fun e => strEndsWith f e) ≤ 1) →
      ((exts.map (globMatches listing)).flatten).length
        = listing.countP (fun f => exts.any (fun e => strEndsWith f e)) := by
  intro listing
  induction listing with
  | nil =>
    intro _
    simp [globMatches, Function.comp, List.sum_eq_zero_iff]
  | cons f rest ih =>
    intro huniq
    have hrest : ∀ g ∈ rest, exts.countP (fun e => strEndsWith g e) ≤ 1 :=
      fun g hg => huniq g (List.mem_cons_of_mem f hg)
    have hf := huniq f (List.mem_cons_self f rest)
    have hstep : ∀ e ∈ exts, (List.length ∘ globMatches (f :: rest)) e
        = (if strEndsWith f e then 1 else 0) + (globMatches rest e).length := by
      intro e _
      by_cases h : strEndsWith f e
      · simp [globMatches, List.filter_cons, h]
        omega
      · simp [globMatches, List.filter_cons, h]
    have ihsum : (exts.map (fun e => (globMatches rest e).length)).sum
        = rest.countP (fun g => exts.any (fun e => strEndsWith g e)) := by
      have h := ih hrest
      rw [List.length_flatten, List.map_map] at h
      simpa [Function.comp] using h
    have hcnt : exts.countP (fun e => strEndsWith f e)
        = if exts.any (fun e => strEndsWith f e) then 1 else 0 := by
      by_cases hany : exts.any (fun e => strEndsWith f e)
      · have hpos : 0 < exts.countP (fun e => strEndsWith f e) :=
          List.countP_pos_iff.mpr (by simpa [List.any_eq_true] using hany)
        simp only [hany, if_true]
        omega
      · have h0 : exts.countP (fun e => strEndsWith f e) = 0 := by
          rw [List.countP_eq_zero]
          intro a ha hp
          exact hany (List.any_eq_true.mpr ⟨a, ha, hp⟩)
        simp [hany, h0]
    rw [List.length_flatten, List.map_map, List.map_congr_left hstep, sum_map_add,
      sum_map_ite_eq_countP, List.countP_cons]
    rw [ihsum, hcnt]
    split_ifs with h <;> omega

/-- With a positive batch size and an embedding call that returns one
vector per input, `process_images_batch` yields one record per file. -/
theorem process_images_batch_length (env : EmbedEnv) (files : List String)
    (bs : Nat) (meta dry : Bool) (hbs : bs ≠ 0)
    (hemb : ∀ b : List String, ∃ es, env.embed b = some es ∧ es.length = b.length) :
    (process_images_batch env files bs meta dry).length = files.length := by
  unfold process_images_batch
  apply length_chunks_flatten_map bs hbs files
  intro b _
  by_cases hdry : dry = true
  · subst hdry
    rw [if_pos rfl]
    simp only [List.length_map]
  · have hd : dry = false := by
      cases dry
      · rfl
      · exact absurd rfl hdry
    subst hd
    rw [if_neg (by decide)]
    rcases hemb b with ⟨es, hes, hlen⟩
    simp [hes, hlen]

/-- C1: for every directory listing, `find_image_files` returns exactly
the paths matching one of the extensions (one entry each, when no file
matches two extensions), and — when every embedding call succeeds with
one vector per input — the saved JSONL has exactly that many lines: N
image files produce N records. -/
theorem pipeline_n_images_n_records
    (listing exts : List String) (env : EmbedEnv) (bs : Nat) (meta dry : Bool)
    (hbs : bs ≠ 0)
    (hemb : ∀ b : List String, ∃ es, env.embed b = some es ∧ es.length = b.length)
    (huniq : ∀ f ∈ listing, exts.countP (fun e => strEndsWith f e) ≤ 1) :
    (∀ f, f ∈ find_image_files listing exts none ↔
        f ∈ listing ∧ exts.any (fun e => strEndsWith f e)) ∧
    (find_image_files listing exts none).length
      = (listing.filter (fun f => exts.any (fun e => strEndsWith f e))).length ∧
    countNl (save_jsonl (process_images_batch env
        (find_image_files listing exts none) bs meta dry))
      = (find_image_files listing exts none).length := by
  refine ⟨?_, ?_, ?_⟩
  · intro f
    simp only [find_image_files, List.mem_mergeSort, List.mem_flatten, List.mem_map,
      globMatches, List.mem_filter, List.any_eq_true]
    constructor
    · rintro ⟨l, ⟨e, he, rfl⟩, hf⟩
      exact ⟨(List.mem_filter.mp hf).1, e, he, (List.mem_filter.mp hf).2⟩
    · rintro ⟨hfl, e, he, hfe⟩
      exact ⟨_, ⟨e, he, rfl⟩, List.mem_filter.mpr ⟨hfl, hfe⟩⟩
  · show (List.mergeSort _ _).length = _
    rw [List.length_mergeSort, glob_flatten_length exts listing huniq,
      List.countP_eq_length_filter]
  · rw [countNl_save_jsonl, process_images_batch_length env _ bs meta dry hbs hemb]

/-- Witness for the pipeline count theorem: three files, two of which are
images, batch size 16, real (non-dry) embedding through `envW`. -/
theorem pipeline_n_images_n_records_witness :
    ((16 : Nat) ≠ 0) ∧
    (∀ f, f ∈ find_image_files ["img/b.png", "img/a.jpg", "notes.txt"]
          [".jpg", ".png"] none ↔
        f ∈ ["img/b.png", "img/a.jpg", "notes.txt"] ∧
          [".jpg", ".png"].any (fun e => strEndsWith f e)) ∧
    (find_image_files ["img/b.png", "img/a.jpg", "notes.txt"] [".jpg", ".png"] none).length
      = (["img/b.png", "img/a.jpg", "notes.txt"].filter
          (fun f => [".jpg", ".png"].any (fun e => strEndsWith f e))).length ∧
    countNl (save_jsonl (process_images_batch envW
        (find_image_files ["img/b.png", "img/a.jpg", "notes.txt"] [".jpg", ".png"] none)
        16 false false))
      = (find_image_files ["img/b.png", "img/a.jpg", "notes.txt"] [".jpg", ".png"] none).length := by
  refine ⟨by decide, ?_⟩
  exact pipeline_n_images_n_records ["img/b.png", "img/a.jpg", "notes.txt"]
    [".jpg", ".png"] envW 16 false false (by decide)
    (fun b => ⟨b.map (fun _ => [(0 : Int)]), rfl, by simp⟩)
    (by decide)


/-! ### `upload_to_atlas.py`

`save_atlas_info` writes `{'map_id', 'map_name', 'last_update'}` via
`json.dump`; `load_atlas_info` reads it back with `json.load`, returning
`{}` when the file is missing or unreadable.  The file is modelled as
holding the JSON value (`json`'s dump/load round-trip is library code
external to this repository). -/

/-- The object `save_atlas_info(embeddings_dir, map_id, map_name)` writes
to `<embeddings_dir>/atlas_info.json`; `time.time()` is the oracle
timestamp. -/
def save_atlas_info (map_id map_name : String) (now : Int) : Json :=
  Json.obj [("map_id", Json.str map_id), ("map_name", Json.str map_name),
            ("last_update", Json.num now)]

/-- `load_atlas_info(embeddings_dir)`: the parsed file content when the
file exists and parses (`some`), else `{}`. -/
def load_atlas_info (fileContent : Option Json) : Json :=
  match fileContent with
  | some info => info
  | none => Json.obj []

/-- C7: round-trip of the persisted Atlas info — after saving, loading
yields a dictionary whose `map_id` and `map_name` are the saved ones. -/
theorem atlas_info_roundtrip (map_id map_name : String) (now : Int) :
    jsonGet (load_atlas_info (some (save_atlas_info map_id map_name now))) "map_id"
      = some (Json.str map_id) ∧
    jsonGet (load_atlas_info (some (save_atlas_info map_id map_name now))) "map_name"
      = some (Json.str map_name) := by
  constructor <;> rfl

/-! ### `simple_upload_to_atlas.py` -/

/-- The tracking JSON fields `get_uploaded_files` reads. -/
structure Tracking where
  uploaded_files : List String
  map_id : Option String
  map_name : Option String
  dataset_id : Option String

/-- `get_uploaded_files(tracking_file)`: the already-uploaded set and the
persisted ids; a missing or unreadable tracking file (`none`) yields the
empty set.  The Python `set` is modelled by the list of its elements. -/
def get_uploaded_files (file : Option Tracking) :
    List String × Option String × Option String × Option String :=
  match file with
  | some t => (t.uploaded_files, t.map_id, t.map_name, t.dataset_id)
  | none => ([], none, none, none)

/-- `main`: `new_image_files = [f for f in all_image_files if f not in
uploaded_files]`. -/
def newImageFiles (all_image_files uploaded_files : List String) : List String :=
  all_image_files.filter (fun f => !(uploaded_files.contains f))

/-- The upload loop over the batches: a successful batch
(`uploadOk b = true`) is uploaded and recorded; the first failing batch
breaks the loop. -/
def runBatches (uploadOk : List String → Bool) : List (List String) → List String
  | [] => []
  | b :: bs => if uploadOk b then b ++ runBatches uploadOk bs else []

/-- The files `main` uploads in one run: the batch loop over
`new_image_files` sliced into `batch_size` chunks. -/
def uploadRun (uploadOk : List String → Bool) (batch_size : Nat)
    (all_image_files uploaded_files : List String) : List String :=
  runBatches uploadOk (chunks batch_size (newImageFiles all_image_files uploaded_files))

/-- The tracking file's `uploaded_files` after a run:
`uploaded_files.update(batch)` followed by `update_tracking_file` runs
after every successful batch, so the final tracking set is the old set
plus everything uploaded this run. -/
def trackingAfterRun (uploadOk : List String → Bool) (batch_size : Nat)
    (all_image_files uploaded_files : List String) : List String :=
  uploaded_files ++ uploadRun uploadOk batch_size all_image_files uploaded_files

theorem mem_runBatches {uploadOk : List String → Bool} :
    ∀ {bl : List (List String)} {x : String},
      x ∈ runBatches uploadOk bl → ∃ b ∈ bl, x ∈ b := by
  intro bl
  induction bl with
  | nil => intro x hx; simp [runBatches] at hx
  | cons b bs ih =>
    intro x hx
    unfold runBatches at hx
    split at hx
    · rcases List.mem_append.mp hx with h | h
      · exact ⟨b, List.mem_cons_self b bs, h⟩
      · rcases ih h with ⟨b2, hb2, hxb2⟩
        exact ⟨b2, List.mem_cons_of_mem b hb2, hxb2⟩
    · simp at hx

/-- Everything the run uploads was picked from `new_image_files`. -/
theorem uploadRun_subset_new (uploadOk : List String → Bool) (bs : Nat)
    (allFiles uploaded : List String) {x : String}
    (hx : x ∈ uploadRun uploadOk bs allFiles uploaded) :
    x ∈ newImageFiles allFiles uploaded := by
  rcases mem_runBatches hx with ⟨b, hb, hxb⟩
  exact mem_of_mem_chunks hb hxb

/-- C2: a file listed in the tracking file's `uploaded_files` set is never
among the files the next run uploads, and every file a run does upload is
recorded in the tracking set the run leaves behind (so a later run skips
it). -/
theorem tracked_files_not_reuploaded (t : Tracking)
    (uploadOk : List String → Bool) (batch_size : Nat)
    (all_image_files : List String) (f : String)
    (hf : f ∈ (get_uploaded_files (some t)).1) :
    f ∉ uploadRun uploadOk batch_size all_image_files
        (get_uploaded_files (some t)).1 ∧
    ∀ g ∈ uploadRun uploadOk batch_size all_image_files
        (get_uploaded_files (some t)).1,
      g ∈ trackingAfterRun uploadOk batch_size all_image_files
        (get_uploaded_files (some t)).1 := by
  constructor
  · intro hrun
    have hnew := uploadRun_subset_new uploadOk batch_size all_image_files _ hrun
    have hb := (List.mem_filter.mp hnew).2
    simp only [Bool.not_eq_true'] at hb
    have : f ∉ (get_uploaded_files (some t)).1 := by simpa using hb
    exact this hf
  · intro g hg
    exact List.mem_append.mpr (Or.inr hg)

/-- Witness: with `a.jpg` already tracked, a run over a directory holding
`a.jpg` and `b.png` does not upload `a.jpg` again. -/
theorem tracked_files_not_reuploaded_witness :
    "img/a.jpg" ∈ (get_uploaded_files (some ⟨["img/a.jpg"], none, none, none⟩)).1 ∧
    ("img/a.jpg" ∉ uploadRun (fun _ => true) 20 ["img/a.jpg", "img/b.png"]
        (get_uploaded_files (some ⟨["img/a.jpg"], none, none, none⟩)).1 ∧
      ∀ g ∈ uploadRun (fun _ => true) 20 ["img/a.jpg", "img/b.png"]
          (get_uploaded_files (some ⟨["img/a.jpg"], none, none, none⟩)).1,
        g ∈ trackingAfterRun (fun _ => true) 20 ["img/a.jpg", "img/b.png"]
          (get_uploaded_files (some ⟨["img/a.jpg"], none, none, none⟩)).1) :=
  ⟨by simp [get_uploaded_files],
   tracked_files_not_reuploaded ⟨["img/a.jpg"], none, none, none⟩
     (fun _ => true) 20 ["img/a.jpg", "img/b.png"] "img/a.jpg"
     (by simp [get_uploaded_files])⟩


/-! ### `batch_processor.py` -/

/-- `ImageBatchProcessor` state: the pending queue, `processed_images`
(modelled as the list of its elements), and the JSONL batch files written
so far. -/
structure BPState where
  pending : List String
  processed : List String
  outputs : List (List Json)

/-- `process_batch(force)`: when the queue is non-empty and (`force` or a
full batch is waiting), slice off `min(len(pending), batch_size)` images,
embed them through `process_images_batch` (which catches embedding
exceptions itself, dropping that batch's records), and `save_jsonl` the
results.  `saveOk = false` models `save_jsonl` raising: the `except`
branch puts the attempted batch back in front of the remaining queue.
`shutil.move` failures are caught per file and do not change this state.
On success the batch joins `processed_images`. -/
def process_batch (env : EmbedEnv) (saveOk : Bool) (batch_size : Nat)
    (force : Bool) (s : BPState) : BPState :=
  if s.pending.isEmpty then s
  else if force ∨ batch_size ≤ s.pending.length then
    let bsz := min s.pending.length batch_size
    let batch := s.pending.take bsz
    let rest := s.pending.drop bsz
    let results := process_images_batch env batch bsz true false
    if saveOk then
      { pending := rest, processed := s.processed ++ batch,
        outputs := s.outputs ++ [results] }
    else
      { pending := batch ++ rest, processed := s.processed,
        outputs := s.outputs }
  else s

/-- C4 (amended): only an exception that propagates out of the batch body
— in practice `save_jsonl` failing — requeues: the pending queue then
holds exactly the attempted batch followed by the previously pending
images, and nothing is marked processed.  When the body completes
(including when the embedding call failed and was caught inside
`process_images_batch`, or when moving files failed and was caught per
file), the batch's images are recorded as processed. -/
theorem process_batch_requeue_on_save_failure (env : EmbedEnv) (saveOk : Bool)
    (batch_size : Nat) (force : Bool) (s : BPState)
    (hne : s.pending ≠ [])
    (hgo : force = true ∨ batch_size ≤ s.pending.length) :
    (saveOk = false →
      (process_batch env saveOk batch_size force s).pending
        = s.pending.take (min s.pending.length batch_size)
            ++ s.pending.drop (min s.pending.length batch_size) ∧
      (process_batch env saveOk batch_size force s).processed = s.processed) ∧
    (saveOk = true →
      (process_batch env saveOk batch_size force s).pending
        = s.pending.drop (min s.pending.length batch_size) ∧
      (process_batch env saveOk batch_size force s).processed
        = s.processed ++ s.pending.take (min s.pending.length batch_size)) := by
  have hemp : s.pending.isEmpty = false := by
    simpa using hne
  have hgoP : (force = true) ∨ batch_size ≤ s.pending.length := hgo
  unfold process_batch
  rw [hemp]
  simp only [Bool.false_eq_true, if_false]
  rw [if_pos hgoP]
  cases saveOk
  · constructor
    · intro _
      rw [if_neg (by simp)]
      exact ⟨rfl, rfl⟩
    · intro h
      cases h
  · constructor
    · intro h
      cases h
    · intro _
      rw [if_pos rfl]
      exact ⟨rfl, rfl⟩

/-- Witness for the requeue theorem: two pending images, forced batch,
failing save — the images are back at the front of the queue, nothing
processed. -/
theorem process_batch_requeue_on_save_failure_witness :
    ((["img/a.jpg", "img/b.png"] : List String) ≠ [] ∧
      (true = true ∨ (16 : Nat) ≤ (["img/a.jpg", "img/b.png"] : List String).length)) ∧
    ((false = false →
      (process_batch envW false 16 true ⟨["img/a.jpg", "img/b.png"], [], []⟩).pending
        = (["img/a.jpg", "img/b.png"] : List String).take
            (min (["img/a.jpg", "img/b.png"] : List String).length 16)
          ++ (["img/a.jpg", "img/b.png"] : List String).drop
            (min (["img/a.jpg", "img/b.png"] : List String).length 16) ∧
      (process_batch envW false 16 true ⟨["img/a.jpg", "img/b.png"], [], []⟩).processed
        = []) ∧
    (false = true →
      (process_batch envW false 16 true ⟨["img/a.jpg", "img/b.png"], [], []⟩).pending
        = (["img/a.jpg", "img/b.png"] : List String).drop
            (min (["img/a.jpg", "img/b.png"] : List String).length 16) ∧
      (process_batch envW false 16 true ⟨["img/a.jpg", "img/b.png"], [], []⟩).processed
        = [] ++ (["img/a.jpg", "img/b.png"] : List String).take
            (min (["img/a.jpg", "img/b.png"] : List String).length 16))) :=
  ⟨⟨by decide, Or.inl rfl⟩,
   process_batch_requeue_on_save_failure envW false 16 true
     ⟨["img/a.jpg", "img/b.png"], [], []⟩ (by decide) (Or.inl rfl)⟩

/-- An embedding environment whose `embed.image` always raises. -/
def envFail : EmbedEnv :=
  { stat := fun _ => ⟨0, 0, 0⟩
    embed := fun _ => none }

/-- Counterexample to C4 as stated: when the embedding call raises, the
exception is caught inside `process_images_batch`, `save_jsonl` then
writes an empty batch file, and `process_batch` marks the image as
processed — the pending queue does NOT contain the attempted batch, so
the image's embedding is silently lost rather than retried. -/
theorem process_batch_embed_failure_not_requeued :
    (process_batch envFail true 1 true ⟨["img/a.jpg"], [], []⟩).pending = [] ∧
    (process_batch envFail true 1 true ⟨["img/a.jpg"], [], []⟩).processed
      = ["img/a.jpg"] ∧
    (process_batch envFail true 1 true ⟨["img/a.jpg"], [], []⟩).outputs = [[]] := by
  refine ⟨?_, ?_, ?_⟩ <;>
    (unfold process_batch process_images_batch
     simp [chunks, envFail])


/-! ### Image model for the Display HAT Mini scripts

`DisplayHATMini.WIDTH/HEIGHT` are the vendor panel size, also fixed in
the repository's own `proxydisplayhatmini.py`.  A PIL image is its
dimensions plus a pixel function; one channel is modelled, the three RGB
channels transforming identically under every operation involved. -/

def WIDTH : Nat := 320

def HEIGHT : Nat := 240

def FADE_STEPS : Nat := 10

def SLIDE_STEPS : Nat := 15

structure PImage where
  width : Nat
  height : Nat
  px : Nat → Nat → Int

/-- `base.paste(img, (x0, y0))`: pixels of `img` replace the overlapping
region; the canvas keeps its own size. -/
def pasteXY (base img : PImage) (x0 y0 : Int) : PImage :=
  { width := base.width, height := base.height,
    px := fun x y =>
      if x0 ≤ (x : Int) ∧ (x : Int) < x0 + img.width ∧
         y0 ≤ (y : Int) ∧ (y : Int) < y0 + img.height
      then img.px ((x : Int) - x0).toNat ((y : Int) - y0).toNat
      else base.px x y }

/-- `Image.blend(im1, im2, alpha)` at `alpha = s / n`: per-pixel
`im1 + alpha * (im2 - im1)`, interpolated in floating point and rounded
to nearest (modelled over exact rationals). -/
def blendPx (a b : Int) (s n : Nat) : Int :=
  (a * ((n : Int) - (s : Int)) + b * (s : Int) + (n : Int) / 2) / (n : Int)

def blendImg (im1 im2 : PImage) (s n : Nat) : PImage :=
  { width := im1.width, height := im1.height,
    px := fun x y => blendPx (im1.px x y) (im2.px x y) s n }

/-! ### `image-gallery.py` `transition_effect` -/

/-- Fade loop frame `step` (of `FADE_STEPS`):
`Image.blend(current_image, next_image, step / FADE_STEPS)`. -/
def fadeFrame (current next : PImage) (step : Nat) : PImage :=
  blendImg current next step FADE_STEPS

/-- Slide loop frame `step` (of `SLIDE_STEPS`): a fresh black composite
with `current` pasted at `(-offset, 0)` and `next` at
`(width - offset, 0)`, with
`offset = int(width * (SLIDE_STEPS - step) / SLIDE_STEPS)` (the float
division is exact on these values, so `int` truncation is the `Nat`
division). -/
def slideFrame (current next : PImage) (step : Nat) : PImage :=
  let offset : Int := ((WIDTH * (SLIDE_STEPS - step)) / SLIDE_STEPS : Nat)
  let composite : PImage := ⟨WIDTH, HEIGHT, fun _ _ => 0⟩
  pasteXY (pasteXY composite current (-offset) 0) next ((WIDTH : Int) - offset) 0

/-- `transition_effect(display, current_image, next_image, effect)`: the
frames pasted into the display buffer, in order.  An unrecognized effect
writes nothing. -/
def transitionFrames (current next : PImage) (effect : String) : List PImage :=
  if effect = "none" then [next]
  else if effect = "fade" then
    (List.range (FADE_STEPS + 1)).map (fadeFrame current next)
  else if effect = "slide" then
    (List.range (SLIDE_STEPS + 1)).map (slideFrame current next)
  else []

/-- The display buffer when `transition_effect` returns: the last frame
written, or the previous buffer content (the current image) when none
was. -/
def finalFrame (current next : PImage) (effect : String) : PImage :=
  ((transitionFrames current next effect).getLast?).getD current

/-- Two concrete full-screen test images: all-black and all-white. -/
def blackImg : PImage := ⟨WIDTH, HEIGHT, fun _ _ => 0⟩

def whiteImg : PImage := ⟨WIDTH, HEIGHT, fun _ _ => 255⟩

/-- C3 at the failing input: with the `slide` effect the transition ends
showing the OLD image.  The last loop step has `offset = 0`, so
`next_image` is pasted at `x = width` (entirely off screen) and
`current_image` at the origin: the final buffer pixel equals the current
image's 0, not the next image's 255. -/
theorem slide_transition_ends_on_old_image :
    (finalFrame blackImg whiteImg "slide").px 0 0 = 0 ∧ whiteImg.px 0 0 = 255 := by
  constructor <;> rfl

/-- The `none` effect does end with the next image fully shown. -/
theorem none_transition_ends_on_next_image (current next : PImage) :
    finalFrame current next "none" = next := rfl

/-- The `fade` effect does end with the next image fully shown: the last
blend has `alpha = FADE_STEPS / FADE_STEPS = 1`. -/
theorem fade_transition_ends_on_next_image (current next : PImage) (x y : Nat) :
    (finalFrame current next "fade").px x y = next.px x y := by
  show blendPx (current.px x y) (next.px x y) FADE_STEPS FADE_STEPS = next.px x y
  unfold blendPx FADE_STEPS
  omega


/-! ### `displayhatutils.py` `process_image` -/

/-- `ImageOps.mirror`: horizontal flip. -/
def mirrorImg (img : PImage) : PImage :=
  ⟨img.width, img.height, fun x y => img.px (img.width - 1 - x) y⟩

/-- `img.rotate(angle, expand=True)` for the right angles the gallery
uses (counterclockwise; 90 and 270 swap the dimensions). -/
def rotateExpand (angle : Nat) (img : PImage) : PImage :=
  if angle % 360 = 90 then
    ⟨img.height, img.width, fun x y => img.px (img.width - 1 - y) x⟩
  else if angle % 360 = 180 then
    ⟨img.width, img.height, fun x y => img.px (img.width - 1 - x) (img.height - 1 - y)⟩
  else if angle % 360 = 270 then
    ⟨img.height, img.width, fun x y => img.px y (img.height - 1 - x)⟩
  else img

/-- `img.resize((nw, nh), Image.LANCZOS)`: the output has exactly the
requested size; the resampled pixel values come from PIL's LANCZOS
kernel, which is external — an oracle supplies them. -/
def resizeImg (resample : PImage → Nat → Nat → Nat → Nat → Int)
    (img : PImage) (nw nh : Nat) : PImage :=
  ⟨nw, nh, fun x y => resample img nw nh x y⟩

/-- `process_image(image, is_portrait, rotation, flip_horizontal)`:
flip, rotate, scale to fit (Python float ratios modelled as exact
rationals; `int()` on the non-negative products is the floor), paste
centred on a display-sized canvas, and for portrait rotate the canvas
into the panel. -/
def process_image (resample : PImage → Nat → Nat → Nat → Nat → Int)
    (image : PImage) (is_portrait : Bool) (rotation : Nat)
    (flip_horizontal : Bool) : PImage :=
  let img := image
  let img := if flip_horizontal then mirrorImg img else img
  let img := if rotation ≠ 0 then rotateExpand rotation img else img
  if is_portrait then
    let width_ratio : ℚ := (HEIGHT : ℚ) / (img.width : ℚ)
    let height_ratio : ℚ := (WIDTH : ℚ) / (img.height : ℚ)
    let ratio := min width_ratio height_ratio
    let new_width := (⌊(img.width : ℚ) * ratio⌋).toNat
    let new_height := (⌊(img.height : ℚ) * ratio⌋).toNat
    let resized := resizeImg resample img new_width new_height
    let result : PImage := ⟨HEIGHT, WIDTH, fun _ _ => 0⟩
    let x_off : Int := ((HEIGHT : Int) - (new_width : Int)) / 2
    let y_off : Int := ((WIDTH : Int) - (new_height : Int)) / 2
    rotateExpand 90 (pasteXY result resized x_off y_off)
  else
    let width_ratio : ℚ := (WIDTH : ℚ) / (img.width : ℚ)
    let height_ratio : ℚ := (HEIGHT : ℚ) / (img.height : ℚ)
    let ratio := min width_ratio height_ratio
    let new_width := (⌊(img.width : ℚ) * ratio⌋).toNat
    let new_height := (⌊(img.height : ℚ) * ratio⌋).toNat
    let resized := resizeImg resample img new_width new_height
    let result : PImage := ⟨WIDTH, HEIGHT, fun _ _ => 0⟩
    let x_off : Int := ((WIDTH : Int) - (new_width : Int)) / 2
    let y_off : Int := ((HEIGHT : Int) - (new_height : Int)) / 2
    pasteXY result resized x_off y_off

/-- C8: for every image (of positive size — PIL cannot load an empty
one, and a zero dimension would make the Python ratio computation divide
by zero) and every combination of settings, `process_image` returns an
image of exactly `DisplayHATMini.WIDTH x DisplayHATMini.HEIGHT`. -/
theorem process_image_fits_display
    (resample : PImage → Nat → Nat → Nat → Nat → Int) (image : PImage)
    (is_portrait : Bool) (rotation : Nat) (flip_horizontal : Bool)
    (_hw : 0 < image.width) (_hh : 0 < image.height)
    (_hrot : rotation = 0 ∨ rotation = 90 ∨ rotation = 180 ∨ rotation = 270) :
    (process_image resample image is_portrait rotation flip_horizontal).width
      = WIDTH ∧
    (process_image resample image is_portrait rotation flip_horizontal).height
      = HEIGHT := by
  unfold process_image
  cases is_portrait
  · simp [pasteXY]
  · simp [pasteXY, rotateExpand, WIDTH, HEIGHT]

/-- Witness: a 2x1 landscape image, portrait mode, rotated 270 and
flipped. -/
theorem process_image_fits_display_witness :
    (0 < (2 : Nat) ∧ 0 < (1 : Nat) ∧
      ((270 : Nat) = 0 ∨ (270 : Nat) = 90 ∨ (270 : Nat) = 180 ∨ (270 : Nat) = 270)) ∧
    ((process_image (fun _ _ _ _ _ => 0) ⟨2, 1, fun _ _ => 7⟩ true 270 true).width
        = WIDTH ∧
      (process_image (fun _ _ _ _ _ => 0) ⟨2, 1, fun _ _ => 7⟩ true 270 true).height
        = HEIGHT) :=
  ⟨⟨by decide, by decide, by decide⟩,
   process_image_fits_display (fun _ _ _ _ _ => 0) ⟨2, 1, fun _ _ => 7⟩ true 270 true
     (by decide) (by decide) (by decide)⟩


/-! ### `image-gallery.py` main loop: the navigation state machine -/

/-- The loop events that matter for `current_index`.  `pressA`/`pressB`
are the previous/next buttons in gallery mode, `slideTick` the slideshow
timer expiring; entering and leaving the transform menu gate navigation;
`other` covers every remaining branch (info toggle, settings menu — which
re-sorts but never grows or shrinks `image_files` — transform actions),
none of which touches the index. -/
inductive GEvent where
  | pressA : GEvent
  | pressB : GEvent
  | slideTick : GEvent
  | enterTransform : GEvent
  | exitTransform : GEvent
  | toggleSlideshow : GEvent
  | other : GEvent

structure GalleryState where
  currentIndex : Int
  inTransformMenu : Bool
  slideshowMode : Bool

/-- One iteration of the polling loop, for an image list of length `n`:
in transform-menu mode only Y (exit) changes this state; in gallery mode
A sets `current_index = (current_index - 1) % n`, B and the slideshow
tick set `current_index = (current_index + 1) % n` (Python `%` on a
positive modulus is `Int.emod`). -/
def galleryStep (n : Nat) (s : GalleryState) (e : GEvent) : GalleryState :=
  if s.inTransformMenu then
    match e with
    | .exitTransform => { s with inTransformMenu := false }
    | _ => s
  else
    match e with
    | .pressA => { s with currentIndex := (s.currentIndex - 1) % (n : Int) }
    | .pressB => { s with currentIndex := (s.currentIndex + 1) % (n : Int) }
    | .slideTick =>
      if s.slideshowMode then
        { s with currentIndex := (s.currentIndex + 1) % (n : Int) }
      else s
    | .enterTransform => { s with inTransformMenu := true }
    | .toggleSlideshow => { s with slideshowMode := !s.slideshowMode }
    | _ => s

/-- The state after a sequence of loop iterations. -/
def galleryRun (n : Nat) (init : GalleryState) (events : List GEvent) :
    GalleryState :=
  events.foldl (galleryStep n) init

theorem galleryStep_index_in_range (n : Nat) (hn : 0 < n) (s : GalleryState)
    (e : GEvent) (hs : 0 ≤ s.currentIndex ∧ s.currentIndex < (n : Int)) :
    0 ≤ (galleryStep n s e).currentIndex ∧
      (galleryStep n s e).currentIndex < (n : Int) := by
  have hne : (n : Int) ≠ 0 := by
    exact_mod_cast Nat.pos_iff_ne_zero.mp hn
  have hpos : (0 : Int) < (n : Int) := by exact_mod_cast hn
  have hmod : ∀ a : Int, 0 ≤ a % (n : Int) ∧ a % (n : Int) < (n : Int) :=
    fun a => ⟨Int.emod_nonneg a hne, Int.emod_lt_of_pos a hpos⟩
  unfold galleryStep
  by_cases hm : s.inTransformMenu = true
  · rw [if_pos hm]
    cases e <;> simpa using hs
  · rw [if_neg hm]
    cases e
    · exact hmod _
    · exact hmod _
    · by_cases hsl : s.slideshowMode = true
      · rw [if_pos hsl]
        exact hmod _
      · rw [if_neg hsl]
        exact hs
    · simpa using hs
    · simpa using hs
    · simpa using hs
    · simpa using hs

/-- C9: for every non-empty image list and every sequence of button
presses and slideshow ticks, `current_index` stays within
`[0, len(image_files) - 1]` — every navigation step updates it modulo
the number of images, and the gallery starts at index 0. -/
theorem gallery_index_always_in_range (n : Nat) (hn : 0 < n)
    (slideshow : Bool) (events : List GEvent) :
    0 ≤ (galleryRun n ⟨0, false, slideshow⟩ events).currentIndex ∧
    (galleryRun n ⟨0, false, slideshow⟩ events).currentIndex < (n : Int) := by
  have step : ∀ (s : GalleryState),
      (0 ≤ s.currentIndex ∧ s.currentIndex < (n : Int)) →
      ∀ evs : List GEvent,
        0 ≤ (galleryRun n s evs).currentIndex ∧
        (galleryRun n s evs).currentIndex < (n : Int) := by
    intro s hs evs
    induction evs generalizing s with
    | nil => exact hs
    | cons e evs ih =>
      exact ih (galleryStep n s e) (galleryStep_index_in_range n hn s e hs)
  refine step ⟨0, false, slideshow⟩ ⟨le_refl 0, ?_⟩ events
  show (0 : Int) < (n : Int)
  exact_mod_cast hn

/-- Witness: three images, a press of each button, a slideshow tick, and
a transform-menu round trip. -/
theorem gallery_index_always_in_range_witness :
    0 < (3 : Nat) ∧
    (0 ≤ (galleryRun 3 ⟨0, false, true⟩
        [GEvent.pressA, GEvent.enterTransform, GEvent.pressB, GEvent.exitTransform,
         GEvent.pressB, GEvent.slideTick]).currentIndex ∧
      (galleryRun 3 ⟨0, false, true⟩
        [GEvent.pressA, GEvent.enterTransform, GEvent.pressB, GEvent.exitTransform,
         GEvent.pressB, GEvent.slideTick]).currentIndex < ((3 : Nat) : Int)) :=
  ⟨by decide,
   gallery_index_always_in_range 3 (by decide) true
     [GEvent.pressA, GEvent.enterTransform, GEvent.pressB, GEvent.exitTransform,
      GEvent.pressB, GEvent.slideTick]⟩


/-! ### `glitch.py` `apply_glitch` -/

/-- A PIL image as `apply_glitch` sees it: its mode string and an opaque
pixel payload. -/
structure GImage where
  mode : String
  payload : List Int

/-- External effects of `apply_glitch`: `img.save(..., format="JPEG")`
producing the JPEG bytes (`none` when PIL raises, e.g. `cannot write
mode RGBA as JPEG`), `Image.open` on the corrupted bytes (`none` when
decoding raises), the pixel conversion behind `convert("RGB")`, and the
random draws (`get_random_indices` and the per-byte `random.random()`).
-/
structure GlitchEnv where
  jpegEncode : GImage → Option (List Nat)
  jpegDecode : List Nat → Option GImage
  convertPayload : GImage → List Int
  replaceVal : Nat
  newVal : Nat
  rand : Nat → ℚ

/-- `threshold = max(0.85, min(0.995, threshold))`. -/
def clampThreshold (t : ℚ) : ℚ := max (85 / 100 : ℚ) (min (995 / 1000 : ℚ) t)

/-- The byte-corruption loop: indices below 500 are skipped; a byte equal
to `replace_val` is replaced by `new_val` when the draw exceeds the
threshold, up to `max_mods` replacements. -/
def glitchBytesAux (replaceVal newVal : Nat) (rand : Nat → ℚ) (threshold : ℚ)
    (maxMods : Nat) : List Nat → Nat → Nat → List Nat
  | [], _, _ => []
  | b :: bs, i, modCount =>
    if 500 ≤ i ∧ b = replaceVal ∧ threshold < rand i ∧ modCount < maxMods then
      newVal ::
        glitchBytesAux replaceVal newVal rand threshold maxMods bs (i + 1) (modCount + 1)
    else
      b :: glitchBytesAux replaceVal newVal rand threshold maxMods bs (i + 1) modCount

/-- The loop over the whole buffer with `max_mods = len(binary) // 200`. -/
def glitchBytes (env : GlitchEnv) (threshold : ℚ) (binary : List Nat) : List Nat :=
  glitchBytesAux env.replaceVal env.newVal env.rand threshold
    (binary.length / 200) binary 0 0

/-- `apply_glitch(img, threshold)`: encode to JPEG, corrupt some bytes,
decode, convert to RGB; each failing step is caught and the unmodified
copy of the input returned. -/
def apply_glitch (env : GlitchEnv) (img : GImage) (threshold : ℚ) : GImage :=
  let t := clampThreshold threshold
  let img_copy := img
  match env.jpegEncode img_copy with
  | none => img_copy
  | some jpeg_bytes =>
    let binary := glitchBytes env t jpeg_bytes
    match env.jpegDecode binary with
    | none => img_copy
    | some glitched =>
      if glitched.mode ≠ "RGB" then
        { mode := "RGB", payload := env.convertPayload glitched }
      else glitched

/-- C10 (amended): `apply_glitch` never raises (the model is total by
construction: every failing step is handled); it returns either an
unmodified copy of the input or an RGB image; when the JPEG re-encoding
or the decoding fails it returns the unmodified copy — which is only an
RGB image when the input was; and on an RGB input the result is always
RGB. -/
theorem apply_glitch_total_and_safe (env : GlitchEnv) (img : GImage) (threshold : ℚ) :
    (apply_glitch env img threshold = img ∨
      (apply_glitch env img threshold).mode = "RGB") ∧
    (env.jpegEncode img = none → apply_glitch env img threshold = img) ∧
    (∀ bs, env.jpegEncode img = some bs →
      env.jpegDecode (glitchBytes env (clampThreshold threshold) bs) = none →
      apply_glitch env img threshold = img) ∧
    (img.mode = "RGB" → (apply_glitch env img threshold).mode = "RGB") := by
  rcases henc : env.jpegEncode img with _ | bs
  · have hval : apply_glitch env img threshold = img := by
      simp only [apply_glitch, henc]
    rw [hval]
    refine ⟨Or.inl rfl, fun _ => rfl, ?_, fun h => h⟩
    intro bs2 hbs2 _
    cases hbs2
  · rcases hdec : env.jpegDecode (glitchBytes env (clampThreshold threshold) bs)
      with _ | glitched
    · have hval : apply_glitch env img threshold = img := by
        simp only [apply_glitch, henc, hdec]
      rw [hval]
      exact ⟨Or.inl rfl, fun _ => rfl, fun _ _ _ => rfl, fun h => h⟩
    · by_cases hmode : glitched.mode = "RGB"
      · have hval : apply_glitch env img threshold = glitched := by
          simp only [apply_glitch, henc, hdec]
          rw [if_neg (not_not_intro hmode)]
        rw [hval]
        refine ⟨Or.inr hmode, fun h => ?_, ?_, fun _ => hmode⟩
        · cases h
        · intro bs2 hbs2 hd2
          cases hbs2
          rw [hdec] at hd2
          cases hd2
      · have hval : apply_glitch env img threshold
            = { mode := "RGB", payload := env.convertPayload glitched } := by
          simp only [apply_glitch, henc, hdec]
          rw [if_pos hmode]
        rw [hval]
        refine ⟨Or.inr rfl, fun h => ?_, ?_, fun _ => rfl⟩
        · cases h
        · intro bs2 hbs2 hd2
          cases hbs2
          rw [hdec] at hd2
          cases hd2

/-- A glitch environment behaving as PIL: the JPEG encoder accepts the
modes JPEG can store and raises on the others (RGBA among them). -/
def envGlitch : GlitchEnv :=
  { jpegEncode := fun i =>
      if i.mode = "RGB" ∨ i.mode = "L" ∨ i.mode = "CMYK" ∨ i.mode = "YCbCr"
      then some (List.replicate 600 0) else none
    jpegDecode := fun _ => some ⟨"RGB", []⟩
    convertPayload := fun g => g.payload
    replaceVal := 100
    newVal := 100
    rand := fun _ => 0 }

/-- Counterexample to C10 as stated: on an RGBA input the JPEG save
raises (`cannot write mode RGBA as JPEG`), the exception handler returns
the unmodified copy, and the result is an RGBA image — not RGB. -/
theorem apply_glitch_rgba_not_rgb :
    (apply_glitch envGlitch ⟨"RGBA", [1, 2, 3]⟩ (9 / 10)).mode = "RGBA" ∧
    ¬ (apply_glitch envGlitch ⟨"RGBA", [1, 2, 3]⟩ (9 / 10)).mode = "RGB" := by
  refine ⟨rfl, ?_⟩
  intro h
  rw [show (apply_glitch envGlitch ⟨"RGBA", [1, 2, 3]⟩ (9 / 10)).mode = "RGBA"
      from rfl] at h
  exact absurd h (by decide)

/-- Witness for the amended theorem, at the RGBA input whose encoding
fails. -/
theorem apply_glitch_total_and_safe_witness :
    ((apply_glitch envGlitch ⟨"RGBA", [1, 2, 3]⟩ (9 / 10) = ⟨"RGBA", [1, 2, 3]⟩ ∨
      (apply_glitch envGlitch ⟨"RGBA", [1, 2, 3]⟩ (9 / 10)).mode = "RGB") ∧
    (envGlitch.jpegEncode ⟨"RGBA", [1, 2, 3]⟩ = none →
      apply_glitch envGlitch ⟨"RGBA", [1, 2, 3]⟩ (9 / 10) = ⟨"RGBA", [1, 2, 3]⟩) ∧
    (∀ bs, envGlitch.jpegEncode ⟨"RGBA", [1, 2, 3]⟩ = some bs →
      envGlitch.jpegDecode (glitchBytes envGlitch (clampThreshold (9 / 10)) bs) = none →
      apply_glitch envGlitch ⟨"RGBA", [1, 2, 3]⟩ (9 / 10) = ⟨"RGBA", [1, 2, 3]⟩) ∧
    ((⟨"RGBA", [1, 2, 3]⟩ : GImage).mode = "RGB" →
      (apply_glitch envGlitch ⟨"RGBA", [1, 2, 3]⟩ (9 / 10)).mode = "RGB")) ∧
    envGlitch.jpegEncode ⟨"RGBA", [1, 2, 3]⟩ = none :=
  ⟨apply_glitch_total_and_safe envGlitch ⟨"RGBA", [1, 2, 3]⟩ (9 / 10), rfl⟩

end PiDay
